import Mathlib

/-!
# Encoder driver (`Encoder.h` / `Encoder.cpp`)

A shallow embedding of the Arduino `Encoder` class: the object state
(`_pin1`, `_pin2`, `_position`), its constructor, `read`, `write` and the
interrupt routine `updateEncoder`, together with the part of the board the
constructor touches (pin modes and attached interrupt routines).

* `uint8_t` pin numbers are `Fin 256`.
* `long` is the 32-bit signed integer of the Arduino targets. A `long` value is
  an `Int`; `_position++` and `_position--` store the two's-complement result
  (`wrapLong`), which is the exact result whenever that is representable.
* `digitalRead`, `digitalPinToInterrupt`, `pinMode` and `attachInterrupt`
  belong to the Arduino core (`Arduino.h`), which is not part of the library:
  the first two are parameters, the last two are modelled from the
  specification of the collaborator interfaces.
-/

namespace EncoderLib

/-! ## Machine types -/

/-- A `uint8_t` pin number. -/
abbrev Pin := Fin 256

/-- Width in bits of `long` on the Arduino targets. -/
def LONG_BITS : Nat := 32

/-- Largest `long`. -/
def LONG_MAX : Int := 2 ^ (LONG_BITS - 1) - 1

/-- Smallest `long`. -/
def LONG_MIN : Int := -(2 ^ (LONG_BITS - 1))

/-- The integers a `long` can hold. -/
def isLong (x : Int) : Prop := LONG_MIN ≤ x ∧ x ≤ LONG_MAX

instance (x : Int) : Decidable (isLong x) := by
  unfold isLong; exact inferInstance

/-- Two's-complement reduction of an exact integer result into `long`. -/
def wrapLong (x : Int) : Int :=
  (x + 2 ^ (LONG_BITS - 1)) % 2 ^ LONG_BITS - 2 ^ (LONG_BITS - 1)

/-! ## Arduino core (collaborator interfaces) -/

/-- Logic level of a digital pin: the values `LOW` and `HIGH` that
`digitalRead` returns. -/
inductive Level where
  | LOW
  | HIGH
  deriving DecidableEq, Repr

/-- Pin configuration, the second argument of `pinMode`. -/
inductive PinMode where
  | INPUT
  | OUTPUT
  | INPUT_PULLUP
  deriving DecidableEq, Repr

/-- Interrupt trigger condition, the third argument of `attachInterrupt`. -/
inductive Trigger where
  | CHANGE
  | RISING
  | FALLING
  deriving DecidableEq, Repr

/-- Interrupt service routines that can be attached; the library has one. -/
inductive Isr where
  | updateEncoder
  deriving DecidableEq, Repr

/-- The hardware configuration the constructor acts on: the mode of each pin
(`none` while unconfigured) and the routine attached to each interrupt number
with its trigger (`none` while detached). -/
structure Board where
  modes : Pin → Option PinMode
  handlers : Int → Option (Isr × Trigger)

/-- Modelled from the spec: the Arduino core call `pinMode(pin, mode)`, the
digital-I/O abstraction's "configure pin" operation. It sets the mode of that
pin and of no other. -/
def pinMode (pin : Pin) (mode : PinMode) (hw : Board) : Board :=
  { hw with modes := fun q => if q = pin then some mode else hw.modes q }

/-- Modelled from the spec: the Arduino core call
`attachInterrupt(interruptNum, isr, mode)`, the interrupt-registration
abstraction. It binds the routine to that interrupt number and to no other. -/
def attachInterrupt (interruptNum : Int) (isr : Isr) (mode : Trigger) (hw : Board) : Board :=
  { hw with handlers := fun n => if n = interruptNum then some (isr, mode) else hw.handlers n }

/-! ## The `Encoder` class -/

/-- The private members of `class Encoder`. -/
structure Encoder where
  _pin1 : Pin
  _pin2 : Pin
  _position : Int
  deriving DecidableEq, Repr

namespace Encoder

/-- The constructor `Encoder::Encoder(uint8_t pin1, uint8_t pin2)`: it returns
the new object and the board after the two `pinMode` and the two
`attachInterrupt` calls. `digitalPinToInterrupt` is the Arduino core's pin to
interrupt-number mapping. -/
def new (digitalPinToInterrupt : Pin → Int) (pin1 pin2 : Pin) (hw : Board) : Encoder × Board :=
  let self : Encoder := { _pin1 := pin1, _pin2 := pin2, _position := 0 }
  let hw := pinMode self._pin1 PinMode.INPUT_PULLUP hw
  let hw := pinMode self._pin2 PinMode.INPUT_PULLUP hw
  let hw := attachInterrupt (digitalPinToInterrupt self._pin1) Isr.updateEncoder Trigger.CHANGE hw
  let hw := attachInterrupt (digitalPinToInterrupt self._pin2) Isr.updateEncoder Trigger.CHANGE hw
  (self, hw)

/-- The method `long Encoder::read()`: the returned value and the object after
the call. -/
def read (self : Encoder) : Int × Encoder :=
  (self._position, self)

/-- The method `void Encoder::write(long p)`. -/
def write (p : Int) (self : Encoder) : Encoder :=
  { self with _position := p }

/-- The routine `Encoder::updateEncoder()`, run on the object whose members it
names. `digitalRead` gives the level of every pin at the time of the call. -/
def updateEncoder (digitalRead : Pin → Level) (self : Encoder) : Encoder :=
  if digitalRead self._pin1 = Level.HIGH then
    if digitalRead self._pin2 = Level.LOW then
      { self with _position := wrapLong (self._position + 1) }
    else
      { self with _position := wrapLong (self._position - 1) }
  else
    self

/-- The interrupt routine run once for each entry of `reads`, in order; an
entry is the level of every pin at the time of that call. -/
def runUpdates (reads : List (Pin → Level)) (self : Encoder) : Encoder :=
  reads.foldl (fun s digitalRead => updateEncoder digitalRead s) self

/-- The pair of levels (pin A, pin B) the routine sees on the pins of `self`. -/
def observed (self : Encoder) (digitalRead : Pin → Level) : Level × Level :=
  (digitalRead self._pin1, digitalRead self._pin2)

/-- How many entries of `reads` show the levels `a` on pin A and `b` on pin B. -/
def countObserved (self : Encoder) (a b : Level) (reads : List (Pin → Level)) : Nat :=
  reads.countP (fun digitalRead => decide (observed self digitalRead = (a, b)))

/-- An encoder is configured on a board when both of its pins are pulled-up
inputs and the update routine is attached, on level change, to the interrupt
of each of them. -/
def configured (digitalPinToInterrupt : Pin → Int) (self : Encoder) (hw : Board) : Prop :=
  hw.modes self._pin1 = some PinMode.INPUT_PULLUP ∧
  hw.modes self._pin2 = some PinMode.INPUT_PULLUP ∧
  hw.handlers (digitalPinToInterrupt self._pin1) = some (Isr.updateEncoder, Trigger.CHANGE) ∧
  hw.handlers (digitalPinToInterrupt self._pin2) = some (Isr.updateEncoder, Trigger.CHANGE)

instance (digitalPinToInterrupt : Pin → Int) (self : Encoder) (hw : Board) :
    Decidable (configured digitalPinToInterrupt self hw) := by
  unfold configured; exact inferInstance

end Encoder

/-! ## Calls on an object -/

/-- One call on an existing object: `read()`, `write(p)`, or one run of the
interrupt routine under the given pin levels. -/
inductive Call where
  | read
  | write (p : Int)
  | update (digitalRead : Pin → Level)

/-- The object after one call. -/
def Call.run : Call → Encoder → Encoder
  | Call.read, self => (Encoder.read self).2
  | Call.write p, self => Encoder.write p self
  | Call.update digitalRead, self => Encoder.updateEncoder digitalRead self

/-- The object after a sequence of calls, in order. -/
def runCalls (calls : List Call) (self : Encoder) : Encoder :=
  calls.foldl (fun s c => c.run s) self

/-- The exact integer result of the arithmetic in `updateEncoder`, before it is
stored in the `long` member: `_position + 1`, `_position - 1`, or `_position`
when nothing is done. -/
def exactUpdate (digitalRead : Pin → Level) (self : Encoder) : Int :=
  if digitalRead self._pin1 = Level.HIGH then
    if digitalRead self._pin2 = Level.LOW then
      self._position + 1
    else
      self._position - 1
  else
    self._position

/-! ## Pin-change events -/

/-- The opposite logic level. -/
def Level.toggle : Level → Level
  | Level.LOW => Level.HIGH
  | Level.HIGH => Level.LOW

/-- The pin levels after the level of `pin` has changed. -/
def togglePin (levels : Pin → Level) (pin : Pin) : Pin → Level :=
  fun q => if q = pin then (levels q).toggle else levels q

/-- Modelled from the spec: the interrupt dispatch of the Arduino core, "invoke
callback on level change for a given pin". The level of `pin` changes; when a
routine is attached to the interrupt of that pin and its trigger matches the
edge, the routine runs and reads the new levels. The result is the new levels
and the object after the event. -/
def pinChange (digitalPinToInterrupt : Pin → Int) (hw : Board) (levels : Pin → Level)
    (pin : Pin) (self : Encoder) : (Pin → Level) × Encoder :=
  let levels1 := togglePin levels pin
  match hw.handlers (digitalPinToInterrupt pin) with
  | some (Isr.updateEncoder, Trigger.CHANGE) => (levels1, Encoder.updateEncoder levels1 self)
  | some (Isr.updateEncoder, Trigger.RISING) =>
    if levels1 pin = Level.HIGH then (levels1, Encoder.updateEncoder levels1 self)
    else (levels1, self)
  | some (Isr.updateEncoder, Trigger.FALLING) =>
    if levels1 pin = Level.LOW then (levels1, Encoder.updateEncoder levels1 self)
    else (levels1, self)
  | none => (levels1, self)

/-- A sequence of pin-change events, one for each pin of `pins` in order,
starting from the given levels and object. -/
def pinChanges (digitalPinToInterrupt : Pin → Int) (hw : Board) (pins : List Pin)
    (start : (Pin → Level) × Encoder) : (Pin → Level) × Encoder :=
  pins.foldl (fun st pin => pinChange digitalPinToInterrupt hw st.1 pin st.2) start

/-! ## Concrete boards and pin levels used in evaluations -/

/-- The pin to interrupt-number mapping of the Arduino Uno: pin 2 is interrupt
0, pin 3 is interrupt 1, any other pin is `NOT_AN_INTERRUPT` (-1). -/
def unoPinToInterrupt (pin : Pin) : Int :=
  if pin = 2 then 0 else if pin = 3 then 1 else -1

/-- A board on which nothing has been configured yet. -/
def blankBoard : Board :=
  { modes := fun _ => none, handlers := fun _ => none }

/-- Pin levels with pin 2 at level `a` and every other pin at level `b`. -/
def levels23 (a b : Level) : Pin → Level :=
  fun q => if q = 2 then a else b

/-- An encoder on pins 2 and 3 holding `p`. -/
def encoder23 (p : Int) : Encoder :=
  { _pin1 := 2, _pin2 := 3, _position := p }

end EncoderLib

/-! ## Arithmetic of `long` -/

namespace EncoderLib

open Encoder

theorem LONG_MAX_eq : LONG_MAX = 2147483647 := by
  unfold LONG_MAX LONG_BITS; norm_num

theorem LONG_MIN_eq : LONG_MIN = -2147483648 := by
  unfold LONG_MIN LONG_BITS; norm_num

theorem wrapLong_eq (x : Int) :
    wrapLong x = (x + 2147483648) % 4294967296 - 2147483648 := by
  unfold wrapLong LONG_BITS; norm_num

theorem isLong_iff (x : Int) : isLong x ↔ -2147483648 ≤ x ∧ x ≤ 2147483647 := by
  unfold isLong; rw [LONG_MAX_eq, LONG_MIN_eq]

/-- A representable result is stored as it is. -/
theorem wrapLong_of_isLong {x : Int} (h : isLong x) : wrapLong x = x := by
  rw [isLong_iff] at h
  rw [wrapLong_eq]; omega

/-- Whatever is stored is a `long`. -/
theorem isLong_wrapLong (x : Int) : isLong (wrapLong x) := by
  rw [isLong_iff, wrapLong_eq]; omega

/-- Reducing an intermediate result does not change the reduced final result. -/
theorem wrapLong_add_wrapLong (x k : Int) : wrapLong (wrapLong x + k) = wrapLong (x + k) := by
  simp only [wrapLong_eq]; omega

/-! ## The interrupt routine, case by case -/

theorem updateEncoder_high_low (s : Encoder) (d : Pin → Level)
    (hA : d s._pin1 = Level.HIGH) (hB : d s._pin2 = Level.LOW) :
    updateEncoder d s = { s with _position := wrapLong (s._position + 1) } := by
  simp [updateEncoder, hA, hB]

theorem updateEncoder_high_high (s : Encoder) (d : Pin → Level)
    (hA : d s._pin1 = Level.HIGH) (hB : d s._pin2 = Level.HIGH) :
    updateEncoder d s = { s with _position := wrapLong (s._position - 1) } := by
  simp [updateEncoder, hA, hB]

theorem updateEncoder_low (s : Encoder) (d : Pin → Level) (hA : d s._pin1 = Level.LOW) :
    updateEncoder d s = s := by
  simp [updateEncoder, hA]

theorem updateEncoder_pin1 (s : Encoder) (d : Pin → Level) :
    (updateEncoder d s)._pin1 = s._pin1 := by
  unfold updateEncoder; split_ifs <;> rfl

theorem updateEncoder_pin2 (s : Encoder) (d : Pin → Level) :
    (updateEncoder d s)._pin2 = s._pin2 := by
  unfold updateEncoder; split_ifs <;> rfl

/-! ## `write` and `read` -/

/-- C1: for every encoder state, also one reached after any number of update
calls, and every integer `p`, `write(p)` followed immediately by `read()`
returns exactly `p`. -/
theorem write_read_roundtrip (s : Encoder) (reads : List (Pin → Level)) (p : Int) :
    (read (write p (runUpdates reads s))).1 = p :=
  rfl

/-- C2: for every pair of pin numbers, on every board and with every pin to
interrupt mapping, `read()` called immediately after construction returns 0. -/
theorem read_after_construction (digitalPinToInterrupt : Pin → Int) (pin1 pin2 : Pin)
    (hw : Board) :
    (read (Encoder.new digitalPinToInterrupt pin1 pin2 hw).1).1 = 0 :=
  rfl

/-! ## One call of the interrupt routine -/

/-- C3 as stated fails at the top of the `long` range: with position
2147483647, pin A high and pin B low, one update stores -2147483648, which is
not the old position plus one. -/
theorem increment_counterexample :
    levels23 Level.HIGH Level.LOW (encoder23 2147483647)._pin1 = Level.HIGH ∧
    levels23 Level.HIGH Level.LOW (encoder23 2147483647)._pin2 = Level.LOW ∧
    (updateEncoder (levels23 Level.HIGH Level.LOW) (encoder23 2147483647))._position
      = -2147483648 ∧
    (updateEncoder (levels23 Level.HIGH Level.LOW) (encoder23 2147483647))._position
      ≠ (encoder23 2147483647)._position + 1 := by
  decide

/-- C3 (amended): for every encoder state whose position `p` is a `long` below
`LONG_MAX`, if pin A is observed high and pin B low, one update leaves the
position equal to `p + 1` and the pins as they were. -/
theorem increment_below_max (s : Encoder) (digitalRead : Pin → Level)
    (hA : digitalRead s._pin1 = Level.HIGH) (hB : digitalRead s._pin2 = Level.LOW)
    (hmin : LONG_MIN ≤ s._position) (hmax : s._position < LONG_MAX) :
    (updateEncoder digitalRead s)._position = s._position + 1 ∧
    (updateEncoder digitalRead s)._pin1 = s._pin1 ∧
    (updateEncoder digitalRead s)._pin2 = s._pin2 := by
  rw [updateEncoder_high_low s digitalRead hA hB]
  refine ⟨?_, rfl, rfl⟩
  apply wrapLong_of_isLong
  constructor <;> omega

theorem increment_below_max_witness :
    (updateEncoder (levels23 Level.HIGH Level.LOW) (encoder23 41))._position
      = (encoder23 41)._position + 1 ∧
    (updateEncoder (levels23 Level.HIGH Level.LOW) (encoder23 41))._pin1 = (encoder23 41)._pin1 ∧
    (updateEncoder (levels23 Level.HIGH Level.LOW) (encoder23 41))._pin2 = (encoder23 41)._pin2 :=
  increment_below_max (encoder23 41) (levels23 Level.HIGH Level.LOW)
    (by decide) (by decide) (by decide) (by decide)

/-- C4 as stated fails at the bottom of the `long` range: with position
-2147483648 and both pins high, one update stores 2147483647, which is not the
old position minus one. -/
theorem decrement_counterexample :
    levels23 Level.HIGH Level.HIGH (encoder23 (-2147483648))._pin1 = Level.HIGH ∧
    levels23 Level.HIGH Level.HIGH (encoder23 (-2147483648))._pin2 = Level.HIGH ∧
    (updateEncoder (levels23 Level.HIGH Level.HIGH) (encoder23 (-2147483648)))._position
      = 2147483647 ∧
    (updateEncoder (levels23 Level.HIGH Level.HIGH) (encoder23 (-2147483648)))._position
      ≠ (encoder23 (-2147483648))._position - 1 := by
  decide

/-- C4 (amended): for every encoder state whose position `p` is a `long` above
`LONG_MIN`, if pin A is observed high and pin B high, one update leaves the
position equal to `p - 1` and the pins as they were. -/
theorem decrement_above_min (s : Encoder) (digitalRead : Pin → Level)
    (hA : digitalRead s._pin1 = Level.HIGH) (hB : digitalRead s._pin2 = Level.HIGH)
    (hmin : LONG_MIN < s._position) (hmax : s._position ≤ LONG_MAX) :
    (updateEncoder digitalRead s)._position = s._position - 1 ∧
    (updateEncoder digitalRead s)._pin1 = s._pin1 ∧
    (updateEncoder digitalRead s)._pin2 = s._pin2 := by
  rw [updateEncoder_high_high s digitalRead hA hB]
  refine ⟨?_, rfl, rfl⟩
  apply wrapLong_of_isLong
  constructor <;> omega

theorem decrement_above_min_witness :
    (updateEncoder (levels23 Level.HIGH Level.HIGH) (encoder23 41))._position
      = (encoder23 41)._position - 1 ∧
    (updateEncoder (levels23 Level.HIGH Level.HIGH) (encoder23 41))._pin1 = (encoder23 41)._pin1 ∧
    (updateEncoder (levels23 Level.HIGH Level.HIGH) (encoder23 41))._pin2 = (encoder23 41)._pin2 :=
  decrement_above_min (encoder23 41) (levels23 Level.HIGH Level.HIGH)
    (by decide) (by decide) (by decide) (by decide)

/-- C5: for every encoder state with position `p` and whatever the level of
pin B, if pin A is observed low, one update leaves the position equal to `p`;
the whole object is unchanged. -/
theorem pinA_low_unchanged (s : Encoder) (digitalRead : Pin → Level)
    (hA : digitalRead s._pin1 = Level.LOW) :
    (updateEncoder digitalRead s)._position = s._position ∧ updateEncoder digitalRead s = s := by
  rw [updateEncoder_low s digitalRead hA]
  exact ⟨rfl, rfl⟩

theorem pinA_low_unchanged_witness :
    ((updateEncoder (levels23 Level.LOW Level.LOW) (encoder23 5))._position
        = (encoder23 5)._position ∧
      updateEncoder (levels23 Level.LOW Level.LOW) (encoder23 5) = encoder23 5) ∧
    ((updateEncoder (levels23 Level.LOW Level.HIGH) (encoder23 5))._position
        = (encoder23 5)._position ∧
      updateEncoder (levels23 Level.LOW Level.HIGH) (encoder23 5) = encoder23 5) :=
  ⟨pinA_low_unchanged (encoder23 5) (levels23 Level.LOW Level.LOW) (by decide),
   pinA_low_unchanged (encoder23 5) (levels23 Level.LOW Level.HIGH) (by decide)⟩

/-! ## Sequences of updates -/

theorem runUpdates_nil (s : Encoder) : runUpdates [] s = s :=
  rfl

theorem runUpdates_cons (d : Pin → Level) (reads : List (Pin → Level)) (s : Encoder) :
    runUpdates (d :: reads) s = runUpdates reads (updateEncoder d s) :=
  rfl

/-- The counts look at the pins of the object only. -/
theorem countObserved_congr {s t : Encoder} (h1 : s._pin1 = t._pin1) (h2 : s._pin2 = t._pin2)
    (a b : Level) (reads : List (Pin → Level)) :
    countObserved s a b reads = countObserved t a b reads := by
  unfold countObserved observed
  rw [h1, h2]

theorem countObserved_nil (s : Encoder) (a b : Level) : countObserved s a b [] = 0 :=
  rfl

theorem countObserved_cons (s : Encoder) (a b : Level) (d : Pin → Level)
    (reads : List (Pin → Level)) :
    countObserved s a b (d :: reads)
      = countObserved s a b reads + if d s._pin1 = a ∧ d s._pin2 = b then 1 else 0 := by
  unfold countObserved observed
  rw [List.countP_cons]
  simp [Prod.ext_iff]

/-- The counts do not depend on the order of the entries. -/
theorem countObserved_perm (s : Encoder) (a b : Level) {r1 r2 : List (Pin → Level)}
    (h : r1.Perm r2) : countObserved s a b r1 = countObserved s a b r2 := by
  unfold countObserved
  exact h.countP_eq _

/-- One update keeps a `long` position a `long`. -/
theorem updateEncoder_isLong (s : Encoder) (d : Pin → Level) (h : isLong s._position) :
    isLong (updateEncoder d s)._position := by
  unfold updateEncoder
  split_ifs
  · exact isLong_wrapLong _
  · exact isLong_wrapLong _
  · exact h

theorem runUpdates_isLong (reads : List (Pin → Level)) (s : Encoder) (h : isLong s._position) :
    isLong (runUpdates reads s)._position := by
  induction reads generalizing s with
  | nil => exact h
  | cons d rest ih =>
    rw [runUpdates_cons]
    exact ih _ (updateEncoder_isLong s d h)

/-- The position after a sequence of updates, up to reduction into `long`: the
start plus the number of (high, low) observations minus the number of
(high, high) observations. -/
theorem wrapLong_runUpdates (reads : List (Pin → Level)) (s : Encoder) :
    wrapLong (runUpdates reads s)._position
      = wrapLong (s._position + countObserved s Level.HIGH Level.LOW reads
          - countObserved s Level.HIGH Level.HIGH reads) := by
  induction reads generalizing s with
  | nil => simp [runUpdates_nil, countObserved_nil]
  | cons d rest ih =>
    rw [runUpdates_cons, ih (updateEncoder d s)]
    rw [countObserved_congr (updateEncoder_pin1 s d) (updateEncoder_pin2 s d),
      countObserved_congr (updateEncoder_pin1 s d) (updateEncoder_pin2 s d)]
    rw [countObserved_cons, countObserved_cons]
    cases hA : d s._pin1 <;> cases hB : d s._pin2
    · rw [updateEncoder_low s d hA]; simp
    · rw [updateEncoder_low s d hA]; simp
    · rw [updateEncoder_high_low s d hA hB]
      simp only [add_sub_assoc, wrapLong_add_wrapLong]
      congr 1
      simp
      ring
    · rw [updateEncoder_high_high s d hA hB]
      simp only [add_sub_assoc, wrapLong_add_wrapLong]
      congr 1
      simp
      ring

/-- C6 as stated fails when the counter overflows: `write(2147483647)` followed
by one update observing (A high, B low) makes `read()` return -2147483648,
while the start plus the count of (high, low) observations is 2147483648. -/
theorem update_sequence_counterexample :
    (read (runUpdates [levels23 Level.HIGH Level.LOW] (write 2147483647 (encoder23 0)))).1
      = -2147483648 ∧
    (read (runUpdates [levels23 Level.HIGH Level.LOW] (write 2147483647 (encoder23 0)))).1
      ≠ 2147483647
          + countObserved (encoder23 0) Level.HIGH Level.LOW [levels23 Level.HIGH Level.LOW]
          - countObserved (encoder23 0) Level.HIGH Level.HIGH [levels23 Level.HIGH Level.LOW] := by
  decide

/-- C6 (amended): for every `long` `p` and every finite sequence of observed
pin levels, starting from `write(p)` and applying one update per entry in
order, `read()` returns `p` plus the number of (A high, B low) entries minus
the number of (A high, B high) entries, reduced into the `long` range; it is
exactly that number whenever that number is a `long`; and the result is the
same for every reordering of the sequence. -/
theorem update_sequence_counts (p : Int) (reads : List (Pin → Level)) (s : Encoder)
    (hp : isLong p) :
    (read (runUpdates reads (write p s))).1
      = wrapLong (p + countObserved s Level.HIGH Level.LOW reads
          - countObserved s Level.HIGH Level.HIGH reads) ∧
    (isLong (p + countObserved s Level.HIGH Level.LOW reads
          - countObserved s Level.HIGH Level.HIGH reads) →
      (read (runUpdates reads (write p s))).1
        = p + countObserved s Level.HIGH Level.LOW reads
            - countObserved s Level.HIGH Level.HIGH reads) ∧
    (∀ reordered : List (Pin → Level), reordered.Perm reads →
      (read (runUpdates reordered (write p s))).1
        = (read (runUpdates reads (write p s))).1) := by
  have key : ∀ r : List (Pin → Level),
      (read (runUpdates r (write p s))).1
        = wrapLong (p + countObserved s Level.HIGH Level.LOW r
            - countObserved s Level.HIGH Level.HIGH r) := by
    intro r
    have h1 : isLong (runUpdates r (write p s))._position := runUpdates_isLong r (write p s) hp
    have h2 := wrapLong_runUpdates r (write p s)
    rw [wrapLong_of_isLong h1] at h2
    exact h2
  refine ⟨key reads, ?_, ?_⟩
  · intro h
    rw [key reads, wrapLong_of_isLong h]
  · intro reordered hperm
    rw [key reordered, key reads, countObserved_perm s _ _ hperm, countObserved_perm s _ _ hperm]

theorem update_sequence_counts_witness :
    isLong 5 ∧
    (read (runUpdates
        [levels23 Level.HIGH Level.LOW, levels23 Level.HIGH Level.LOW, levels23 Level.LOW Level.LOW]
        (write 5 (encoder23 0)))).1 = 7 ∧
    (read (runUpdates
        [levels23 Level.LOW Level.LOW, levels23 Level.HIGH Level.LOW, levels23 Level.HIGH Level.LOW]
        (write 5 (encoder23 0)))).1 = 7 := by
  have h := update_sequence_counts 5
    [levels23 Level.HIGH Level.LOW, levels23 Level.HIGH Level.LOW, levels23 Level.LOW Level.LOW]
    (encoder23 0) (by decide)
  refine ⟨by decide, ?_, ?_⟩
  · rw [h.2.1 (by decide)]; decide
  · have hperm : List.Perm
        ([levels23 Level.LOW Level.LOW]
          ++ [levels23 Level.HIGH Level.LOW, levels23 Level.HIGH Level.LOW])
        ([levels23 Level.HIGH Level.LOW, levels23 Level.HIGH Level.LOW]
          ++ [levels23 Level.LOW Level.LOW]) := List.perm_append_comm
    exact (h.2.2 _ hperm).trans ((h.2.1 (by decide)).trans (by decide))

/-! ## Construction -/

theorem new_fst (digitalPinToInterrupt : Pin → Int) (pin1 pin2 : Pin) (hw : Board) :
    (Encoder.new digitalPinToInterrupt pin1 pin2 hw).1
      = { _pin1 := pin1, _pin2 := pin2, _position := 0 } :=
  rfl

/-- The constructor always leaves the new object configured on the board. -/
theorem new_configured (digitalPinToInterrupt : Pin → Int) (pin1 pin2 : Pin) (hw : Board) :
    configured digitalPinToInterrupt (Encoder.new digitalPinToInterrupt pin1 pin2 hw).1
      (Encoder.new digitalPinToInterrupt pin1 pin2 hw).2 := by
  simp only [configured, Encoder.new, pinMode, attachInterrupt]
  refine ⟨?_, ?_, ?_, ?_⟩
  · split_ifs <;> rfl
  · simp
  · split_ifs <;> rfl
  · simp

/-- C7 as stated fails: `Encoder(2, 2)` on a blank Arduino Uno is not rejected;
the constructor returns an object with both pin members equal to 2 and position
0, and leaves it configured on the board (pin 2 a pulled-up input, the update
routine attached to its interrupt on level change). -/
theorem same_pin_counterexample :
    (Encoder.new unoPinToInterrupt 2 2 blankBoard).1
      = { _pin1 := 2, _pin2 := 2, _position := 0 } ∧
    configured unoPinToInterrupt (Encoder.new unoPinToInterrupt 2 2 blankBoard).1
      (Encoder.new unoPinToInterrupt 2 2 blankBoard).2 ∧
    (Encoder.new unoPinToInterrupt 2 2 blankBoard).2.modes 2 = some PinMode.INPUT_PULLUP ∧
    (Encoder.new unoPinToInterrupt 2 2 blankBoard).2.handlers 0
      = some (Isr.updateEncoder, Trigger.CHANGE) := by
  decide

/-- C7 (amended): for every pin number `x`, construction with both arguments
equal to `x` is not rejected: it succeeds like any other construction, giving an
object with both pin members equal to `x` and position 0, configured on the
board, so `read()` on it returns 0. -/
theorem same_pin_accepted (digitalPinToInterrupt : Pin → Int) (x : Pin) (hw : Board) :
    (Encoder.new digitalPinToInterrupt x x hw).1 = { _pin1 := x, _pin2 := x, _position := 0 } ∧
    configured digitalPinToInterrupt (Encoder.new digitalPinToInterrupt x x hw).1
      (Encoder.new digitalPinToInterrupt x x hw).2 ∧
    (read (Encoder.new digitalPinToInterrupt x x hw).1).1 = 0 :=
  ⟨new_fst digitalPinToInterrupt x x hw, new_configured digitalPinToInterrupt x x hw, rfl⟩

/-! ## Size of one step -/

/-- C8 as stated fails in three places: with pin A low an update leaves
position 0 at 0, which is neither 1 nor -1; at position 2147483647 with
(A high, B low) the stored result is -2147483648, and at position -2147483648
with (A high, B high) it is 2147483647, in both cases neither the old position
plus one nor the old position minus one. -/
theorem step_exactly_one_counterexample :
    ((updateEncoder (levels23 Level.LOW Level.HIGH) (encoder23 0))._position = 0 ∧
      (updateEncoder (levels23 Level.LOW Level.HIGH) (encoder23 0))._position
        ≠ (encoder23 0)._position + 1 ∧
      (updateEncoder (levels23 Level.LOW Level.HIGH) (encoder23 0))._position
        ≠ (encoder23 0)._position - 1) ∧
    ((updateEncoder (levels23 Level.HIGH Level.LOW) (encoder23 2147483647))._position
        = -2147483648 ∧
      (updateEncoder (levels23 Level.HIGH Level.LOW) (encoder23 2147483647))._position
        ≠ (encoder23 2147483647)._position + 1 ∧
      (updateEncoder (levels23 Level.HIGH Level.LOW) (encoder23 2147483647))._position
        ≠ (encoder23 2147483647)._position - 1) ∧
    ((updateEncoder (levels23 Level.HIGH Level.HIGH) (encoder23 (-2147483648)))._position
        = 2147483647 ∧
      (updateEncoder (levels23 Level.HIGH Level.HIGH) (encoder23 (-2147483648)))._position
        ≠ (encoder23 (-2147483648))._position + 1 ∧
      (updateEncoder (levels23 Level.HIGH Level.HIGH) (encoder23 (-2147483648)))._position
        ≠ (encoder23 (-2147483648))._position - 1) := by
  decide

/-- C8 (amended): for every encoder state whose position `p` is a `long` and
every pair of pin levels observed at update time, other than the two
overflowing combinations (`p = LONG_MAX` with A high and B low, `p = LONG_MIN`
with A high and B high), one call of the update routine changes the position
by at most 1: the new position is `p + 1` when A is high and B low, `p - 1`
when both are high, and `p` when A is low. -/
theorem step_at_most_one (s : Encoder) (digitalRead : Pin → Level)
    (hp : isLong s._position)
    (hmax : ¬ (s._position = LONG_MAX ∧
      digitalRead s._pin1 = Level.HIGH ∧ digitalRead s._pin2 = Level.LOW))
    (hmin : ¬ (s._position = LONG_MIN ∧
      digitalRead s._pin1 = Level.HIGH ∧ digitalRead s._pin2 = Level.HIGH)) :
    (digitalRead s._pin1 = Level.HIGH ∧ digitalRead s._pin2 = Level.LOW ∧
      (updateEncoder digitalRead s)._position = s._position + 1) ∨
    (digitalRead s._pin1 = Level.HIGH ∧ digitalRead s._pin2 = Level.HIGH ∧
      (updateEncoder digitalRead s)._position = s._position - 1) ∨
    (digitalRead s._pin1 = Level.LOW ∧
      (updateEncoder digitalRead s)._position = s._position) := by
  obtain ⟨hlo, hhi⟩ := hp
  cases hA : digitalRead s._pin1 <;> cases hB : digitalRead s._pin2
  · exact Or.inr (Or.inr ⟨rfl, by rw [updateEncoder_low s digitalRead hA]⟩)
  · exact Or.inr (Or.inr ⟨rfl, by rw [updateEncoder_low s digitalRead hA]⟩)
  · refine Or.inl ⟨rfl, rfl, ?_⟩
    have hne : s._position ≠ LONG_MAX := fun h => hmax ⟨h, hA, hB⟩
    rw [updateEncoder_high_low s digitalRead hA hB]
    exact wrapLong_of_isLong ⟨by omega, by omega⟩
  · refine Or.inr (Or.inl ⟨rfl, rfl, ?_⟩)
    have hne : s._position ≠ LONG_MIN := fun h => hmin ⟨h, hA, hB⟩
    rw [updateEncoder_high_high s digitalRead hA hB]
    exact wrapLong_of_isLong ⟨by omega, by omega⟩

theorem step_at_most_one_witness :
    (isLong (encoder23 2147483647)._position ∧
      (updateEncoder (levels23 Level.HIGH Level.HIGH) (encoder23 2147483647))._position
        = (encoder23 2147483647)._position - 1) ∧
    (isLong (encoder23 (-2147483648))._position ∧
      (updateEncoder (levels23 Level.HIGH Level.LOW) (encoder23 (-2147483648)))._position
        = (encoder23 (-2147483648))._position + 1) ∧
    (updateEncoder (levels23 Level.LOW Level.HIGH) (encoder23 2147483647))._position
      = (encoder23 2147483647)._position ∧
    (updateEncoder (levels23 Level.LOW Level.LOW) (encoder23 (-2147483648)))._position
      = (encoder23 (-2147483648))._position := by
  have h1 := step_at_most_one (encoder23 2147483647) (levels23 Level.HIGH Level.HIGH)
    (by decide) (by decide) (by decide)
  have h2 := step_at_most_one (encoder23 (-2147483648)) (levels23 Level.HIGH Level.LOW)
    (by decide) (by decide) (by decide)
  have h3 := step_at_most_one (encoder23 2147483647) (levels23 Level.LOW Level.HIGH)
    (by decide) (by decide) (by decide)
  have h4 := step_at_most_one (encoder23 (-2147483648)) (levels23 Level.LOW Level.LOW)
    (by decide) (by decide) (by decide)
  refine ⟨⟨by decide, ?_⟩, ⟨by decide, ?_⟩, ?_, ?_⟩
  · rcases h1 with ⟨_, hB, _⟩ | ⟨_, _, h⟩ | ⟨hA, _⟩
    · exact absurd hB (by decide)
    · exact h
    · exact absurd hA (by decide)
  · rcases h2 with ⟨_, _, h⟩ | ⟨_, hB, _⟩ | ⟨hA, _⟩
    · exact h
    · exact absurd hB (by decide)
    · exact absurd hA (by decide)
  · rcases h3 with ⟨hA, _, _⟩ | ⟨hA, _, _⟩ | ⟨_, h⟩
    · exact absurd hA (by decide)
    · exact absurd hA (by decide)
    · exact h
  · rcases h4 with ⟨hA, _, _⟩ | ⟨hA, _, _⟩ | ⟨_, h⟩
    · exact absurd hA (by decide)
    · exact absurd hA (by decide)
    · exact h

/-! ## Edges of pin B -/

/-- C9, the code at the failing input: `Encoder(2, 3)` is constructed on a
blank Arduino Uno and both pins rest high. Pin B (pin 3) then falls while pin A
(pin 2) keeps its level: the routine attached to the interrupt of pin 3 runs
and the position goes from 0 to 1. When pin B rises again, still with pin A
high, the position goes back from 1 to 0. An edge of pin B is not ignored. -/
theorem pinB_edge_moves_position :
    (Encoder.new unoPinToInterrupt 2 3 blankBoard).1._position = 0 ∧
    togglePin (levels23 Level.HIGH Level.HIGH) 3 2 = levels23 Level.HIGH Level.HIGH 2 ∧
    (pinChange unoPinToInterrupt (Encoder.new unoPinToInterrupt 2 3 blankBoard).2
        (levels23 Level.HIGH Level.HIGH) 3
        (Encoder.new unoPinToInterrupt 2 3 blankBoard).1).2._position = 1 ∧
    (pinChanges unoPinToInterrupt (Encoder.new unoPinToInterrupt 2 3 blankBoard).2 [3, 3]
        (levels23 Level.HIGH Level.HIGH,
          (Encoder.new unoPinToInterrupt 2 3 blankBoard).1)).2._position = 0 := by
  decide

/-- With the edges of pin B counted, a full quadrature cycle leaves the counter
where it was, in either direction of rotation: from both pins low, the order
A, B, A, B of edges (A leads) and the order B, A, B, A (B leads) both end at the
starting position. -/
theorem quadrature_cycle_nets_zero :
    (pinChanges unoPinToInterrupt (Encoder.new unoPinToInterrupt 2 3 blankBoard).2 [2, 3, 2, 3]
        (levels23 Level.LOW Level.LOW,
          (Encoder.new unoPinToInterrupt 2 3 blankBoard).1)).2._position = 0 ∧
    (pinChanges unoPinToInterrupt (Encoder.new unoPinToInterrupt 2 3 blankBoard).2 [3, 2, 3, 2]
        (levels23 Level.LOW Level.LOW,
          (Encoder.new unoPinToInterrupt 2 3 blankBoard).1)).2._position = 0 := by
  decide

/-! ## `read` is pure -/

/-- C10: `read()` has no side effects and always succeeds: for every encoder
state `s`, it returns the position of `s` and leaves the object, hence each of
its members, unchanged, so two consecutive reads return the same value. -/
theorem read_pure (s : Encoder) :
    (read s).1 = s._position ∧
    (read s).2 = s ∧
    (read s).2._position = s._position ∧
    (read s).2._pin1 = s._pin1 ∧
    (read s).2._pin2 = s._pin2 ∧
    (read (read s).2).1 = (read s).1 :=
  ⟨rfl, rfl, rfl, rfl, rfl, rfl⟩

/-! ## The pin members never change -/

theorem Call.run_pin1 (c : Call) (s : Encoder) : (c.run s)._pin1 = s._pin1 := by
  cases c with
  | read => rfl
  | write p => rfl
  | update d => exact updateEncoder_pin1 s d

theorem Call.run_pin2 (c : Call) (s : Encoder) : (c.run s)._pin2 = s._pin2 := by
  cases c with
  | read => rfl
  | write p => rfl
  | update d => exact updateEncoder_pin2 s d

theorem runCalls_pins (calls : List Call) (s : Encoder) :
    (runCalls calls s)._pin1 = s._pin1 ∧ (runCalls calls s)._pin2 = s._pin2 := by
  induction calls generalizing s with
  | nil => exact ⟨rfl, rfl⟩
  | cons c rest ih =>
    have h := ih (c.run s)
    rw [Call.run_pin1, Call.run_pin2] at h
    exact h

/-- C11: the pin identifiers are immutable after construction: for every
object produced by `Encoder(pin1, pin2)` and every later sequence of `read`,
`write(p)` and update calls, pin A is still `pin1` and pin B is still `pin2`. -/
theorem pins_immutable (digitalPinToInterrupt : Pin → Int) (pin1 pin2 : Pin) (hw : Board)
    (calls : List Call) :
    (runCalls calls (Encoder.new digitalPinToInterrupt pin1 pin2 hw).1)._pin1 = pin1 ∧
    (runCalls calls (Encoder.new digitalPinToInterrupt pin1 pin2 hw).1)._pin2 = pin2 :=
  runCalls_pins calls (Encoder.new digitalPinToInterrupt pin1 pin2 hw).1

/-! ## What construction does to the board -/

/-- With the routine attached on level change, an edge of that pin runs the
routine on the new levels, whichever way the level moved. -/
theorem pinChange_of_change (digitalPinToInterrupt : Pin → Int) (hw : Board)
    (levels : Pin → Level) (pin : Pin) (s : Encoder)
    (h : hw.handlers (digitalPinToInterrupt pin) = some (Isr.updateEncoder, Trigger.CHANGE)) :
    pinChange digitalPinToInterrupt hw levels pin s
      = (togglePin levels pin, updateEncoder (togglePin levels pin) s) := by
  simp [pinChange, h]

/-- C12: over the board model (pin modes and attached interrupt routines),
construction `Encoder(pin1, pin2)` sets both pins to pulled-up input mode and
attaches the update routine, triggered on level change, to the interrupt line
of each of the two pins, so that an edge of either pin in either direction runs
the routine; the mode of every other pin and the routine of every other
interrupt line are left as they were. -/
theorem construction_configures_board (digitalPinToInterrupt : Pin → Int) (pin1 pin2 : Pin)
    (hw : Board) :
    (Encoder.new digitalPinToInterrupt pin1 pin2 hw).2.modes pin1
      = some PinMode.INPUT_PULLUP ∧
    (Encoder.new digitalPinToInterrupt pin1 pin2 hw).2.modes pin2
      = some PinMode.INPUT_PULLUP ∧
    (Encoder.new digitalPinToInterrupt pin1 pin2 hw).2.handlers (digitalPinToInterrupt pin1)
      = some (Isr.updateEncoder, Trigger.CHANGE) ∧
    (Encoder.new digitalPinToInterrupt pin1 pin2 hw).2.handlers (digitalPinToInterrupt pin2)
      = some (Isr.updateEncoder, Trigger.CHANGE) ∧
    (∀ (levels : Pin → Level) (s : Encoder),
      pinChange digitalPinToInterrupt (Encoder.new digitalPinToInterrupt pin1 pin2 hw).2
          levels pin1 s
        = (togglePin levels pin1, updateEncoder (togglePin levels pin1) s) ∧
      pinChange digitalPinToInterrupt (Encoder.new digitalPinToInterrupt pin1 pin2 hw).2
          levels pin2 s
        = (togglePin levels pin2, updateEncoder (togglePin levels pin2) s)) ∧
    (∀ q : Pin, q ≠ pin1 → q ≠ pin2 →
      (Encoder.new digitalPinToInterrupt pin1 pin2 hw).2.modes q = hw.modes q) ∧
    (∀ n : Int, n ≠ digitalPinToInterrupt pin1 → n ≠ digitalPinToInterrupt pin2 →
      (Encoder.new digitalPinToInterrupt pin1 pin2 hw).2.handlers n = hw.handlers n) := by
  have hc := new_configured digitalPinToInterrupt pin1 pin2 hw
  obtain ⟨h1, h2, h3, h4⟩ := hc
  refine ⟨h1, h2, h3, h4, ?_, ?_, ?_⟩
  · intro levels s
    exact ⟨pinChange_of_change _ _ levels pin1 s h3, pinChange_of_change _ _ levels pin2 s h4⟩
  · intro q hq1 hq2
    simp [Encoder.new, pinMode, attachInterrupt, hq1, hq2]
  · intro n hn1 hn2
    simp [Encoder.new, pinMode, attachInterrupt, hn1, hn2]

theorem construction_configures_board_witness :
    (Encoder.new unoPinToInterrupt 2 3 blankBoard).2.modes 2 = some PinMode.INPUT_PULLUP ∧
    (Encoder.new unoPinToInterrupt 2 3 blankBoard).2.modes 3 = some PinMode.INPUT_PULLUP ∧
    (Encoder.new unoPinToInterrupt 2 3 blankBoard).2.handlers 0
      = some (Isr.updateEncoder, Trigger.CHANGE) ∧
    (Encoder.new unoPinToInterrupt 2 3 blankBoard).2.handlers 1
      = some (Isr.updateEncoder, Trigger.CHANGE) ∧
    (Encoder.new unoPinToInterrupt 2 3 blankBoard).2.modes 4 = blankBoard.modes 4 ∧
    (Encoder.new unoPinToInterrupt 2 3 blankBoard).2.handlers 5 = blankBoard.handlers 5 :=
  have h := construction_configures_board unoPinToInterrupt 2 3 blankBoard
  ⟨h.1, h.2.1, h.2.2.1, h.2.2.2.1,
    h.2.2.2.2.2.1 4 (by decide) (by decide), h.2.2.2.2.2.2 5 (by decide) (by decide)⟩

/-! ## Overflow of the counter -/

/-- What the routine stores is the reduction of the exact result. -/
theorem updateEncoder_position_eq (s : Encoder) (d : Pin → Level) (h : isLong s._position) :
    (updateEncoder d s)._position = wrapLong (exactUpdate d s) := by
  unfold updateEncoder exactUpdate
  split_ifs
  · rfl
  · rfl
  · exact (wrapLong_of_isLong h).symm

/-- C14: with the position a signed 32-bit `long`, for every position `p` with
`LONG_MIN < p < LONG_MAX` and every pair of observed pin levels, one update
performs no overflow: the stored result is the exact integer result, which is
`p + 1`, `p - 1` or `p`, and it is a `long`. The bound is tight: at
`p = LONG_MAX` with (A high, B low) and at `p = LONG_MIN` with (A high, B high)
the exact result is not a `long` and differs from what is stored. -/
theorem no_overflow_inside_range :
    (∀ (s : Encoder) (digitalRead : Pin → Level),
      LONG_MIN < s._position → s._position < LONG_MAX →
        (updateEncoder digitalRead s)._position = exactUpdate digitalRead s ∧
        (exactUpdate digitalRead s = s._position + 1 ∨
          exactUpdate digitalRead s = s._position - 1 ∨
          exactUpdate digitalRead s = s._position) ∧
        isLong (updateEncoder digitalRead s)._position) ∧
    (∀ (s : Encoder) (digitalRead : Pin → Level),
      s._position = LONG_MAX →
      digitalRead s._pin1 = Level.HIGH → digitalRead s._pin2 = Level.LOW →
        exactUpdate digitalRead s = 2147483648 ∧
        ¬ isLong (exactUpdate digitalRead s) ∧
        (updateEncoder digitalRead s)._position ≠ exactUpdate digitalRead s) ∧
    (∀ (s : Encoder) (digitalRead : Pin → Level),
      s._position = LONG_MIN →
      digitalRead s._pin1 = Level.HIGH → digitalRead s._pin2 = Level.HIGH →
        exactUpdate digitalRead s = -2147483649 ∧
        ¬ isLong (exactUpdate digitalRead s) ∧
        (updateEncoder digitalRead s)._position ≠ exactUpdate digitalRead s) := by
  refine ⟨?_, ?_, ?_⟩
  · intro s d hmin hmax
    have hp : isLong s._position := ⟨le_of_lt hmin, le_of_lt hmax⟩
    have hex : isLong (exactUpdate d s) := by
      unfold exactUpdate
      split_ifs <;> constructor <;> omega
    have hst : (updateEncoder d s)._position = exactUpdate d s := by
      rw [updateEncoder_position_eq s d hp, wrapLong_of_isLong hex]
    refine ⟨hst, ?_, hst ▸ hex⟩
    unfold exactUpdate
    split_ifs
    · exact Or.inl rfl
    · exact Or.inr (Or.inl rfl)
    · exact Or.inr (Or.inr rfl)
  · intro s d hp hA hB
    have hex : exactUpdate d s = 2147483648 := by
      simp [exactUpdate, hA, hB, hp, LONG_MAX_eq]
    have hnl : ¬ isLong (exactUpdate d s) := by
      rw [hex, isLong_iff]; omega
    refine ⟨hex, hnl, ?_⟩
    intro h
    rw [updateEncoder_high_low s d hA hB] at h
    exact hnl (h ▸ isLong_wrapLong _)
  · intro s d hp hA hB
    have hex : exactUpdate d s = -2147483649 := by
      simp [exactUpdate, hA, hB, hp, LONG_MIN_eq]
    have hnl : ¬ isLong (exactUpdate d s) := by
      rw [hex, isLong_iff]; omega
    refine ⟨hex, hnl, ?_⟩
    intro h
    rw [updateEncoder_high_high s d hA hB] at h
    exact hnl (h ▸ isLong_wrapLong _)

theorem no_overflow_inside_range_witness :
    ((updateEncoder (levels23 Level.HIGH Level.LOW) (encoder23 2147483646))._position
        = exactUpdate (levels23 Level.HIGH Level.LOW) (encoder23 2147483646) ∧
      isLong (updateEncoder (levels23 Level.HIGH Level.LOW) (encoder23 2147483646))._position) ∧
    ¬ isLong (exactUpdate (levels23 Level.HIGH Level.LOW) (encoder23 2147483647)) ∧
    ¬ isLong (exactUpdate (levels23 Level.HIGH Level.HIGH) (encoder23 (-2147483648))) :=
  have h := no_overflow_inside_range
  have h1 := h.1 (encoder23 2147483646) (levels23 Level.HIGH Level.LOW) (by decide) (by decide)
  ⟨⟨h1.1, h1.2.2⟩,
    (h.2.1 (encoder23 2147483647) (levels23 Level.HIGH Level.LOW)
      (by decide) (by decide) (by decide)).2.1,
    (h.2.2 (encoder23 (-2147483648)) (levels23 Level.HIGH Level.HIGH)
      (by decide) (by decide) (by decide)).2.1⟩

/-! ## The two branches undo each other -/

/-- C15 as stated fails at the bottom of the `long` range: from position
-2147483648 an update observing (A high, B high) stores 2147483647, not the old
position minus one; the following update observing (A high, B low) does return
the position to -2147483648. -/
theorem toggle_B_counterexample :
    (updateEncoder (levels23 Level.HIGH Level.HIGH) (encoder23 (-2147483648)))._position
      = 2147483647 ∧
    (updateEncoder (levels23 Level.HIGH Level.HIGH) (encoder23 (-2147483648)))._position
      ≠ (encoder23 (-2147483648))._position - 1 ∧
    (updateEncoder (levels23 Level.HIGH Level.LOW)
        (updateEncoder (levels23 Level.HIGH Level.HIGH) (encoder23 (-2147483648))))._position
      = -2147483648 := by
  decide

/-- C15 (amended): while pin A is held high, pin B toggling alone moves the
counter: for every `long` position `p`, an update observing (A high, B high)
followed by one observing (A high, B low) returns the position to `p`, and so
do the two in the other order; each of the two updates individually changes the
position; the value in between is `p - 1` when `p` is above `LONG_MIN`, and in
the other order `p + 1` when `p` is below `LONG_MAX`. -/
theorem toggle_B_round_trip (s : Encoder) (dHH dHL : Pin → Level) (hp : isLong s._position)
    (hA1 : dHH s._pin1 = Level.HIGH) (hB1 : dHH s._pin2 = Level.HIGH)
    (hA2 : dHL s._pin1 = Level.HIGH) (hB2 : dHL s._pin2 = Level.LOW) :
    (updateEncoder dHL (updateEncoder dHH s))._position = s._position ∧
    (updateEncoder dHH (updateEncoder dHL s))._position = s._position ∧
    (updateEncoder dHH s)._position ≠ s._position ∧
    (updateEncoder dHL (updateEncoder dHH s))._position ≠ (updateEncoder dHH s)._position ∧
    (updateEncoder dHL s)._position ≠ s._position ∧
    (updateEncoder dHH (updateEncoder dHL s))._position ≠ (updateEncoder dHL s)._position ∧
    (LONG_MIN < s._position → (updateEncoder dHH s)._position = s._position - 1) ∧
    (s._position < LONG_MAX → (updateEncoder dHL s)._position = s._position + 1) := by
  have e1 := updateEncoder_high_high s dHH hA1 hB1
  have e2 := updateEncoder_high_low s dHL hA2 hB2
  have f1 : updateEncoder dHL (updateEncoder dHH s)
      = { updateEncoder dHH s with _position := wrapLong ((updateEncoder dHH s)._position + 1) } :=
    updateEncoder_high_low _ dHL
      (by rw [updateEncoder_pin1]; exact hA2) (by rw [updateEncoder_pin2]; exact hB2)
  have f2 : updateEncoder dHH (updateEncoder dHL s)
      = { updateEncoder dHL s with _position := wrapLong ((updateEncoder dHL s)._position - 1) } :=
    updateEncoder_high_high _ dHH
      (by rw [updateEncoder_pin1]; exact hA1) (by rw [updateEncoder_pin2]; exact hB1)
  rw [f1, f2, e1, e2]
  rw [isLong_iff] at hp
  simp only [wrapLong_eq, LONG_MIN_eq, LONG_MAX_eq]
  refine ⟨?_, ?_, ?_, ?_, ?_, ?_, ?_, ?_⟩ <;> omega

theorem toggle_B_round_trip_witness :
    (updateEncoder (levels23 Level.HIGH Level.LOW)
        (updateEncoder (levels23 Level.HIGH Level.HIGH) (encoder23 9)))._position = 9 ∧
    (updateEncoder (levels23 Level.HIGH Level.HIGH) (encoder23 9))._position = 8 :=
  have h := toggle_B_round_trip (encoder23 9) (levels23 Level.HIGH Level.HIGH)
    (levels23 Level.HIGH Level.LOW) (by decide) (by decide) (by decide) (by decide) (by decide)
  ⟨h.1, h.2.2.2.2.2.2.1 (by decide)⟩

/-! ## The routine sees only the position and the two levels -/

theorem updateEncoder_position_congr (s1 s2 : Encoder) (d1 d2 : Pin → Level)
    (hp : s1._position = s2._position) (ho : observed s1 d1 = observed s2 d2) :
    (updateEncoder d1 s1)._position = (updateEncoder d2 s2)._position := by
  unfold observed at ho
  have hA : d1 s1._pin1 = d2 s2._pin1 := congrArg Prod.fst ho
  have hB : d1 s1._pin2 = d2 s2._pin2 := congrArg Prod.snd ho
  unfold updateEncoder
  rw [hA, hB]
  split_ifs
  · show wrapLong (s1._position + 1) = wrapLong (s2._position + 1)
    rw [hp]
  · show wrapLong (s1._position - 1) = wrapLong (s2._position - 1)
    rw [hp]
  · exact hp

theorem observed_updateEncoder (s : Encoder) (d e : Pin → Level) :
    observed (updateEncoder d s) e = observed s e := by
  unfold observed
  rw [updateEncoder_pin1, updateEncoder_pin2]

theorem map_observed_updateEncoder (s : Encoder) (d : Pin → Level)
    (reads : List (Pin → Level)) :
    reads.map (observed (updateEncoder d s)) = reads.map (observed s) := by
  apply List.map_congr_left
  intro e _
  exact observed_updateEncoder s d e

theorem runUpdates_position_congr (reads1 reads2 : List (Pin → Level)) (s1 s2 : Encoder)
    (hp : s1._position = s2._position)
    (ho : reads1.map (observed s1) = reads2.map (observed s2)) :
    (runUpdates reads1 s1)._position = (runUpdates reads2 s2)._position := by
  induction reads1 generalizing reads2 s1 s2 with
  | nil =>
    cases reads2 with
    | nil => exact hp
    | cons d2 rest2 => simp at ho
  | cons d1 rest1 ih =>
    cases reads2 with
    | nil => simp at ho
    | cons d2 rest2 =>
      rw [List.map_cons, List.map_cons, List.cons.injEq] at ho
      rw [runUpdates_cons, runUpdates_cons]
      apply ih
      · exact updateEncoder_position_congr s1 s2 d1 d2 hp ho.1
      · rw [map_observed_updateEncoder, map_observed_updateEncoder]
        exact ho.2

/-- C16: the effect of the update routine depends only on the current position
and the two observed pin levels: two encoder states with equal position,
whatever their pin numbers, that observe the same levels of A and B have equal
positions after one update; and `write(p)` erases all prior history: for any
two states, `write(p)` followed by updates observing the same sequence of
levels gives the same `read()` result on both, in particular for two states on
the same pins under the same sequence of pin levels. -/
theorem update_depends_on_position_and_levels :
    (∀ (s1 s2 : Encoder) (d1 d2 : Pin → Level),
      s1._position = s2._position → observed s1 d1 = observed s2 d2 →
        (updateEncoder d1 s1)._position = (updateEncoder d2 s2)._position) ∧
    (∀ (s1 s2 : Encoder) (p : Int) (reads1 reads2 : List (Pin → Level)),
      reads1.map (observed s1) = reads2.map (observed s2) →
        (read (runUpdates reads1 (write p s1))).1 = (read (runUpdates reads2 (write p s2))).1) ∧
    (∀ (s1 s2 : Encoder) (p : Int) (reads : List (Pin → Level)),
      s1._pin1 = s2._pin1 → s1._pin2 = s2._pin2 →
        (read (runUpdates reads (write p s1))).1 = (read (runUpdates reads (write p s2))).1) := by
  refine ⟨updateEncoder_position_congr, ?_, ?_⟩
  · intro s1 s2 p reads1 reads2 ho
    exact runUpdates_position_congr reads1 reads2 (write p s1) (write p s2) rfl ho
  · intro s1 s2 p reads h1 h2
    apply runUpdates_position_congr reads reads (write p s1) (write p s2) rfl
    apply List.map_congr_left
    intro e _
    show (e s1._pin1, e s1._pin2) = (e s2._pin1, e s2._pin2)
    rw [h1, h2]

theorem update_depends_on_position_and_levels_witness :
    (updateEncoder (levels23 Level.HIGH Level.LOW) (encoder23 100))._position
      = (updateEncoder (fun q => if q = 5 then Level.HIGH else Level.LOW)
          { _pin1 := 5, _pin2 := 6, _position := 100 })._position ∧
    (read (runUpdates [levels23 Level.HIGH Level.LOW, levels23 Level.HIGH Level.HIGH]
        (write 5 (encoder23 100)))).1
      = (read (runUpdates [fun q => if q = 5 then Level.HIGH else Level.LOW, fun _ => Level.HIGH]
          (write 5 { _pin1 := 5, _pin2 := 6, _position := -4 }))).1 ∧
    (read (runUpdates [levels23 Level.HIGH Level.LOW] (write 5 (encoder23 100)))).1
      = (read (runUpdates [levels23 Level.HIGH Level.LOW] (write 5 (encoder23 (-4))))).1 :=
  have h := update_depends_on_position_and_levels
  ⟨h.1 (encoder23 100) { _pin1 := 5, _pin2 := 6, _position := 100 }
      (levels23 Level.HIGH Level.LOW) (fun q => if q = 5 then Level.HIGH else Level.LOW)
      (by decide) (by decide),
    h.2.1 (encoder23 100) { _pin1 := 5, _pin2 := 6, _position := -4 } 5
      [levels23 Level.HIGH Level.LOW, levels23 Level.HIGH Level.HIGH]
      [fun q => if q = 5 then Level.HIGH else Level.LOW, fun _ => Level.HIGH] (by decide),
    h.2.2 (encoder23 100) (encoder23 (-4)) 5 [levels23 Level.HIGH Level.LOW]
      (by decide) (by decide)⟩

end EncoderLib
